import Mathlib

/-!
Verification development for the Minesweeper knowledge-based agent
(`minesweeper.py`).  The agent state (`MinesweeperAI`) and all of its
operations are shallowly embedded as executable Lean functions; Python
sets become `Finset`, Python ints become `ℤ`, Python lists become `List`.

Python sentences are shared mutable objects: an agent-level mark operation
mutates every sentence currently in `self.knowledge`.  Loops that iterate
over a snapshot of the knowledge list while marks mutate the shared
sentence objects are embedded by threading an explicit list of mark
events (`applyEvents`) that is replayed onto each pending (not yet
visited) sentence, while the sentences held in the threaded state's
`knowledge` field receive the marks eagerly.  Python iterates its sets in
an unspecified order; the embedding iterates them in the lexicographic
order given by `sortCells` (mark operations on distinct cells commute, so
the aggregate effect does not depend on this choice).
-/

/-- A board cell, a `(row, col)` pair of integers. -/
abbrev Cell := ℤ × ℤ

/-- Lexicographic order on cells, used to fix an iteration order for Python sets. -/
def cellLe (a b : Cell) : Prop := a.1 < b.1 ∨ (a.1 = b.1 ∧ a.2 ≤ b.2)

instance : DecidableRel cellLe := fun a b =>
  inferInstanceAs (Decidable (a.1 < b.1 ∨ (a.1 = b.1 ∧ a.2 ≤ b.2)))

instance : IsTrans Cell cellLe where
  trans := by
    intro a b c hab hbc
    unfold cellLe at *
    omega

instance : IsAntisymm Cell cellLe where
  antisymm := by
    intro a b hab hba
    obtain ⟨a1, a2⟩ := a
    obtain ⟨b1, b2⟩ := b
    unfold cellLe at *
    simp only [Prod.mk.injEq]
    constructor <;> omega

instance : IsTotal Cell cellLe where
  total := by
    intro a b
    unfold cellLe
    omega

/-- The cells of a Python set, listed in the fixed iteration order.
(Insertion sort is used because it reduces inside the kernel; the result is
the unique `cellLe`-sorted enumeration of the set.) -/
def sortCells (s : Finset Cell) : List Cell :=
  Quot.liftOn s.val (fun l => List.insertionSort cellLe l)
    (fun l1 l2 h =>
      List.eq_of_perm_of_sorted
        ((List.perm_insertionSort cellLe l1).trans
          (h.trans (List.perm_insertionSort cellLe l2).symm))
        (List.sorted_insertionSort cellLe l1)
        (List.sorted_insertionSort cellLe l2))

/-- `class Sentence`: a logical statement `{cells} = count`.
Equality is structural (cell set and count), as in `Sentence.__eq__`. -/
structure Sentence where
  cells : Finset Cell
  count : ℤ
deriving DecidableEq

/-- `Sentence.known_mines`: returns the cell set if `len(self.cells) == self.count`, else `None`. -/
def Sentence.known_mines (s : Sentence) : Option (Finset Cell) :=
  if (s.cells.card : ℤ) = s.count then some s.cells else none

/-- `Sentence.known_safes`: returns the cell set if `self.count == 0`, else `None`. -/
def Sentence.known_safes (s : Sentence) : Option (Finset Cell) :=
  if s.count = 0 then some s.cells else none

/-- `Sentence.mark_mine`: if the cell is a member, remove it and decrement the count. -/
def Sentence.mark_mine (s : Sentence) (c : Cell) : Sentence :=
  if c ∈ s.cells then ⟨s.cells.erase c, s.count - 1⟩ else s

/-- `Sentence.mark_safe`: if the cell is a member, remove it; the count is unchanged. -/
def Sentence.mark_safe (s : Sentence) (c : Cell) : Sentence :=
  if c ∈ s.cells then ⟨s.cells.erase c, s.count⟩ else s

/-- Python truthiness of an optional set: `None` and the empty set are both falsy.
This is how `if sentence.known_mines():` evaluates in the source. -/
def optTruthy (o : Option (Finset Cell)) : Bool :=
  match o with
  | none => false
  | some s => decide (s ≠ ∅)

/-- A recorded mark event: `(true, c)` is `mark_mine(c)`, `(false, c)` is `mark_safe(c)`. -/
abbrev MarkEvent := Bool × Cell

/-- Replay a list of mark events onto a sentence, in order.  This is the
accumulated effect of the in-place mutations a shared sentence object has
received. -/
def applyEvents (s : Sentence) : List MarkEvent → Sentence
  | [] => s
  | e :: es => applyEvents (if e.1 then s.mark_mine e.2 else s.mark_safe e.2) es

/-- The mark events produced by marking each listed cell (as mines when `isMine`). -/
def markEvents (cs : List Cell) (isMine : Bool) : List MarkEvent :=
  cs.map (fun c => (isMine, c))

/-- Insert each cell of a list into a finset (the effect of repeated `set.add`). -/
def insertList (s : Finset Cell) : List Cell → Finset Cell
  | [] => s
  | c :: cs => insertList (insert c s) cs

/-- `class MinesweeperAI`: the agent state after `__init__(height, width)`
and any number of operations. -/
structure MinesweeperAI where
  height : ℤ
  width : ℤ
  moves_made : Finset Cell
  mines : Finset Cell
  safes : Finset Cell
  knowledge : List Sentence
deriving DecidableEq

/-- `MinesweeperAI.__init__(height, width)`: empty sets and no knowledge. -/
def MinesweeperAI.init (height width : ℤ) : MinesweeperAI :=
  ⟨height, width, ∅, ∅, ∅, []⟩

/-- `MinesweeperAI.get_safes`: `self.safes` when truthy (nonempty), else the empty list. -/
def MinesweeperAI.get_safes (st : MinesweeperAI) : Finset Cell ⊕ List Cell :=
  if st.safes ≠ ∅ then Sum.inl st.safes else Sum.inr []

/-- `MinesweeperAI.get_mines`: `self.mines` when truthy (nonempty), else the empty list. -/
def MinesweeperAI.get_mines (st : MinesweeperAI) : Finset Cell ⊕ List Cell :=
  if st.mines ≠ ∅ then Sum.inl st.mines else Sum.inr []

/-- The element collection of a `get_safes` / `get_mines` result. -/
def returnedCells : Finset Cell ⊕ List Cell → Finset Cell
  | Sum.inl s => s
  | Sum.inr l => l.toFinset

/-- `MinesweeperAI.mark_mine`: add to `self.mines` and mark in every sentence of `self.knowledge`. -/
def MinesweeperAI.mark_mine (st : MinesweeperAI) (c : Cell) : MinesweeperAI :=
  { st with mines := insert c st.mines,
            knowledge := st.knowledge.map (fun s => s.mark_mine c) }

/-- `MinesweeperAI.mark_safe`: add to `self.safes` and mark in every sentence of `self.knowledge`. -/
def MinesweeperAI.mark_safe (st : MinesweeperAI) (c : Cell) : MinesweeperAI :=
  { st with safes := insert c st.safes,
            knowledge := st.knowledge.map (fun s => s.mark_safe c) }

/-- A `for mine in cells: self.mark_mine(mine)` loop over a list of cells. -/
def MinesweeperAI.mark_mine_list (st : MinesweeperAI) : List Cell → MinesweeperAI
  | [] => st
  | c :: cs => (st.mark_mine c).mark_mine_list cs

/-- A `for safe in cells: self.mark_safe(safe)` loop over a list of cells. -/
def MinesweeperAI.mark_safe_list (st : MinesweeperAI) : List Cell → MinesweeperAI
  | [] => st
  | c :: cs => (st.mark_safe c).mark_safe_list cs

/-- The accumulator loop of `clean_up`: append each sentence not already present. -/
def dedupAux : List Sentence → List Sentence → List Sentence
  | acc, [] => acc
  | acc, s :: rest => if s ∈ acc then dedupAux acc rest else dedupAux (acc ++ [s]) rest

/-- `MinesweeperAI.clean_up`: remove structurally-equal duplicates from
`self.knowledge`, keeping first occurrences. -/
def clean_up (st : MinesweeperAI) : MinesweeperAI :=
  { st with knowledge := dedupAux [] st.knowledge }

/-- One iteration body of the `remove_knowns` loop, for the current sentence
value `s`: a sentence whose `known_mines()` is truthy has each of its cells
marked as a mine and is not kept (`new_knowledge.pop`); likewise for
`known_safes()`; otherwise it stays appended to `new_knowledge` (here the
`knowledge` field of the threaded state). -/
def rkStep (st : MinesweeperAI) (events : List MarkEvent) (s : Sentence) :
    MinesweeperAI × List MarkEvent :=
  if optTruthy s.known_mines then
    (st.mark_mine_list (sortCells s.cells), events ++ markEvents (sortCells s.cells) true)
  else if optTruthy s.known_safes then
    (st.mark_safe_list (sortCells s.cells), events ++ markEvents (sortCells s.cells) false)
  else ({ st with knowledge := st.knowledge ++ [s] }, events)

/-- The `remove_knowns` loop over the snapshot of the knowledge list.  The
pending sentences are shared objects, so the marks performed so far
(`events`) are replayed onto each before it is examined. -/
def rkPass (st : MinesweeperAI) (events : List MarkEvent) : List Sentence → MinesweeperAI
  | [] => st
  | s0 :: rest =>
    let p := rkStep st events (applyEvents s0 events)
    rkPass p.1 p.2 rest

/-- `MinesweeperAI.remove_knowns`: a single pass over `self.knowledge`
extracting the sentences that are resolved when visited. -/
def remove_knowns (st : MinesweeperAI) : MinesweeperAI :=
  rkPass { st with knowledge := [] } [] st.knowledge

/-- Like `rkPass`, but also returning the list of mark events the pass has
performed.  Running it on a prefix of the knowledge list gives the exact
point the `remove_knowns` loop has reached when it is about to visit the
next sentence. -/
def rkPassEv (st : MinesweeperAI) (ev : List MarkEvent) :
    List Sentence → MinesweeperAI × List MarkEvent
  | [] => (st, ev)
  | s0 :: rest =>
    rkPassEv (rkStep st ev (applyEvents s0 ev)).1 (rkStep st ev (applyEvents s0 ev)).2 rest

/-- The accumulator state (`new_knowledge` plus the mark sets) of the
`remove_knowns` pass on `st` at the moment it has processed exactly the
prefix `pre` of `st.knowledge`. -/
def visitState (st : MinesweeperAI) (pre : List Sentence) : MinesweeperAI :=
  (rkPassEv { st with knowledge := [] } [] pre).1

/-- The mark events the `remove_knowns` pass on `st` has performed after
processing exactly the prefix `pre` of `st.knowledge`. -/
def visitEvents (st : MinesweeperAI) (pre : List Sentence) : List MarkEvent :=
  (rkPassEv { st with knowledge := [] } [] pre).2

/-- The current value of the shared sentence object `s` at the moment the
`remove_knowns` pass on `st` visits it, `pre` being the prefix of
`st.knowledge` before it: its original value with all marks performed
earlier in the pass replayed onto it. -/
def visitValue (st : MinesweeperAI) (pre : List Sentence) (s : Sentence) : Sentence :=
  applyEvents s (visitEvents st pre)

/-- One iteration body of the `make_inferences` loop, comparing the current
value `s` of an existing sentence with the new sentence `ns`.  The source
computes `set_difference = sentence.cells.difference(new_sentence.cells)` in
BOTH branches; in the second branch (`new_sentence.cells.issuperset(...)`)
that difference is empty whenever the guard holds, so the second branch
performs no action. -/
def miStep (ns : Sentence) (st : MinesweeperAI) (events : List MarkEvent) (s : Sentence) :
    MinesweeperAI × List MarkEvent :=
  if ns.cells ⊆ s.cells then
    if s.cells \ ns.cells = ∅ then (st, events)
    else if s.count = ns.count then
      (st.mark_safe_list (sortCells (s.cells \ ns.cells)),
        events ++ markEvents (sortCells (s.cells \ ns.cells)) false)
    else if ((s.cells \ ns.cells).card : ℤ) = s.count - ns.count then
      (st.mark_mine_list (sortCells (s.cells \ ns.cells)),
        events ++ markEvents (sortCells (s.cells \ ns.cells)) true)
    else ({ st with knowledge := st.knowledge ++ [⟨s.cells \ ns.cells, s.count - ns.count⟩] },
        events)
  else if s.cells ⊆ ns.cells then
    if s.cells \ ns.cells = ∅ then (st, events)
    else if s.count = ns.count then
      (st.mark_safe_list (sortCells (s.cells \ ns.cells)),
        events ++ markEvents (sortCells (s.cells \ ns.cells)) false)
    else if ((s.cells \ ns.cells).card : ℤ) = ns.count - s.count then
      (st.mark_mine_list (sortCells (s.cells \ ns.cells)),
        events ++ markEvents (sortCells (s.cells \ ns.cells)) true)
    else ({ st with knowledge := st.knowledge ++ [⟨s.cells \ ns.cells, ns.count - s.count⟩] },
        events)
  else (st, events)

/-- The `make_inferences` loop: iterates over the snapshot of the knowledge
list taken at entry, calling `clean_up` at the top of every iteration; the
pending sentences are shared objects and receive the marks performed so far. -/
def miPass (ns : Sentence) (st : MinesweeperAI) (events : List MarkEvent) :
    List Sentence → MinesweeperAI
  | [] => st
  | s0 :: rest =>
    let p := miStep ns (clean_up st) events (applyEvents s0 events)
    miPass ns p.1 p.2 rest

/-- `MinesweeperAI.make_inferences(new_sentence)`. -/
def make_inferences (st : MinesweeperAI) (ns : Sentence) : MinesweeperAI :=
  miPass ns st [] st.knowledge

/-- The 8 cells of the 3×3 box around a cell, minus the cell itself, in the
source's row-major loop order. -/
def boxCells (cell : Cell) : List Cell :=
  [(cell.1 - 1, cell.2 - 1), (cell.1 - 1, cell.2), (cell.1 - 1, cell.2 + 1),
   (cell.1, cell.2 - 1), (cell.1, cell.2 + 1),
   (cell.1 + 1, cell.2 - 1), (cell.1 + 1, cell.2), (cell.1 + 1, cell.2 + 1)]

/-- `MinesweeperAI.nearby_cells(cell, count)`: collect the in-bounds box
cells that are neither known safe nor known mine, and decrement the count
for each box cell that is a known mine (the source checks the mine
membership outside the bounds test). -/
def nearby_cells (st : MinesweeperAI) (cell : Cell) (count : ℤ) : Finset Cell × ℤ :=
  (boxCells cell).foldl
    (fun acc c =>
      let acc1 : Finset Cell × ℤ :=
        if 0 ≤ c.1 ∧ c.1 < st.height ∧ 0 ≤ c.2 ∧ c.2 < st.width ∧
            c ∉ st.safes ∧ c ∉ st.mines
        then (insert c acc.1, acc.2)
        else acc
      if c ∈ st.mines then (acc1.1, acc1.2 - 1) else acc1)
    (∅, count)

/-- `MinesweeperAI.add_knowledge(cell, count)`. -/
def add_knowledge (st : MinesweeperAI) (cell : Cell) (count : ℤ) : MinesweeperAI :=
  let st1 := { st with moves_made := insert cell st.moves_made }
  let st2 := st1.mark_safe cell
  let nc := nearby_cells st2 cell count
  let ns : Sentence := ⟨nc.1, nc.2⟩
  let st3 := make_inferences st2 ns
  let st4 := { st3 with knowledge := st3.knowledge ++ [ns] }
  let st5 := clean_up st4
  remove_knowns st5

/-- `MinesweeperAI.make_safe_move`: the first cell of `self.safes` (iterated
in the fixed set order) that is neither in `moves_made` nor in `mines`, or
`None`.  The method only reads the state; the returned pair carries the
unchanged state. -/
def make_safe_move (st : MinesweeperAI) : Option Cell × MinesweeperAI :=
  ((sortCells st.safes).find?
      (fun c => decide (c ∉ st.moves_made) && decide (c ∉ st.mines)), st)

/-- The `moves_left_to_play` list built by `make_random_move`: the source
loops `for i in range(8): for j in range(8)` (a hardcoded 8×8 grid,
regardless of the agent's `height` and `width`). -/
def moves_left_to_play (st : MinesweeperAI) : List Cell :=
  (List.range 8).flatMap (fun i =>
    (List.range 8).filterMap (fun j =>
      let c : Cell := ((i : ℤ), (j : ℤ))
      if c ∉ st.moves_made ∧ c ∉ st.mines then some c else none))

/-- `MinesweeperAI.make_random_move`: shuffle the candidate list and return
its first element, or `None` when the list is empty.  The shuffle is a
parameter of the model (any permutation of the list). -/
def make_random_move (st : MinesweeperAI) (shuffle : List Cell → List Cell) : Option Cell :=
  (shuffle (moves_left_to_play st)).head?

/-- The cell domain the specification prescribes for `randomMove`: the
complement of `movesMade ∪ mines` over the full `height × width` grid.
(Spec-side definition, used to exhibit the divergence of the source's
hardcoded 8×8 grid.) -/
def randomMoveDomainSpec (st : MinesweeperAI) : Finset Cell :=
  ((Finset.Icc 0 (st.height - 1)) ×ˢ (Finset.Icc 0 (st.width - 1))).filter
    (fun c => c ∉ st.moves_made ∧ c ∉ st.mines)

/-- A public operation on the agent (§4.2 of the specification).
`safe_move` and `random_move` only read the state. -/
inductive AgentOp where
  | mark_mine_op (c : Cell)
  | mark_safe_op (c : Cell)
  | add_knowledge_op (c : Cell) (count : ℤ)
  | safe_move_op
  | random_move_op

/-- Apply one public operation to the agent state. -/
def applyOp (st : MinesweeperAI) : AgentOp → MinesweeperAI
  | .mark_mine_op c => st.mark_mine c
  | .mark_safe_op c => st.mark_safe c
  | .add_knowledge_op c n => add_knowledge st c n
  | .safe_move_op => (make_safe_move st).2
  | .random_move_op => st

/-- Run a sequence of public operations. -/
def runOps (st : MinesweeperAI) : List AgentOp → MinesweeperAI
  | [] => st
  | op :: ops => runOps (applyOp st op) ops

/-- Concrete scenario for C1: one existing sentence `{(0,1)} = 1`; the new
sentence strictly contains it. -/
def c1ExState : MinesweeperAI := ⟨3, 3, ∅, ∅, ∅, [⟨{((0 : ℤ), (1 : ℤ))}, 1⟩]⟩

/-- The new sentence `{(0,1), (0,2)} = 2` of the C1 scenario. -/
def c1ExNew : Sentence := ⟨{((0 : ℤ), (1 : ℤ)), ((0 : ℤ), (2 : ℤ))}, 2⟩

/-- Concrete scenario for C2: a 1×5 board with mines at (0,2) and (0,4);
reveal (0,1) with count 1, then (0,3) with count 2. -/
def c2Ex : MinesweeperAI :=
  add_knowledge (add_knowledge (MinesweeperAI.init 1 5) (0, 1) 1) (0, 3) 2

/-- Concrete scenario for C3: a 1×1 board; reveal the only cell with count 0. -/
def c3Ex : MinesweeperAI := add_knowledge (MinesweeperAI.init 1 1) (0, 0) 0

/-- Concrete scenario for C4: a 1×1 agent whose only cell has been played. -/
def c4Ex : MinesweeperAI := ⟨1, 1, {((0 : ℤ), (0 : ℤ))}, ∅, {((0 : ℤ), (0 : ℤ))}, []⟩

/-- Concrete scenario for C5: a 4×4 board with a mine at (0,0); reveal
(0,2)/0, (1,0)/1, (1,1)/1, (2,1)/0 (all counts are the true board counts). -/
def c5Ex : MinesweeperAI :=
  add_knowledge (add_knowledge (add_knowledge
    (add_knowledge (MinesweeperAI.init 4 4) (0, 2) 0) (1, 0) 1) (1, 1) 1) (2, 1) 0

/-- Concrete scenario for C6: a 1×3 board; reveal (0,1) with count 1, then
mark both remaining cells safe through the public mark operation. -/
def c6Ex : MinesweeperAI :=
  ((add_knowledge (MinesweeperAI.init 1 3) (0, 1) 1).mark_safe (0, 0)).mark_safe (0, 2)

/-- Concrete operation sequence for C7: mark the same cell safe, then mine. -/
def c7Ops : List AgentOp := [AgentOp.mark_safe_op (0, 0), AgentOp.mark_mine_op (0, 0)]

/-- The three monotone components of the agent state: `safes`, `mines` and
`moves_made` of the first state are contained in those of the second. -/
def Grows (a b : MinesweeperAI) : Prop :=
  a.safes ⊆ b.safes ∧ a.mines ⊆ b.mines ∧ a.moves_made ⊆ b.moves_made

theorem grows_refl (st : MinesweeperAI) : Grows st st :=
  ⟨Finset.Subset.refl _, Finset.Subset.refl _, Finset.Subset.refl _⟩

theorem grows_trans {a b c : MinesweeperAI} (h1 : Grows a b) (h2 : Grows b c) : Grows a c :=
  ⟨h1.1.trans h2.1, h1.2.1.trans h2.2.1, h1.2.2.trans h2.2.2⟩

theorem insertList_subset (cs : List Cell) (s : Finset Cell) : s ⊆ insertList s cs := by
  induction cs generalizing s with
  | nil => exact Finset.Subset.refl _
  | cons c cs ih =>
    exact (Finset.subset_insert c s).trans (ih (insert c s))

theorem mem_insertList {c : Cell} (cs : List Cell) (s : Finset Cell) (h : c ∈ cs) :
    c ∈ insertList s cs := by
  induction cs generalizing s with
  | nil => cases h
  | cons d cs ih =>
    rcases List.mem_cons.mp h with h | h
    · subst h
      exact insertList_subset cs (insert c s) (Finset.mem_insert_self c s)
    · exact ih (insert d s) h

theorem mark_safe_list_fields (cs : List Cell) (st : MinesweeperAI) :
    (st.mark_safe_list cs).safes = insertList st.safes cs ∧
    (st.mark_safe_list cs).mines = st.mines ∧
    (st.mark_safe_list cs).moves_made = st.moves_made ∧
    (st.mark_safe_list cs).height = st.height ∧
    (st.mark_safe_list cs).width = st.width := by
  induction cs generalizing st with
  | nil => exact ⟨rfl, rfl, rfl, rfl, rfl⟩
  | cons c cs ih =>
    simpa [MinesweeperAI.mark_safe_list, MinesweeperAI.mark_safe, insertList]
      using ih (st.mark_safe c)

theorem mark_mine_list_fields (cs : List Cell) (st : MinesweeperAI) :
    (st.mark_mine_list cs).mines = insertList st.mines cs ∧
    (st.mark_mine_list cs).safes = st.safes ∧
    (st.mark_mine_list cs).moves_made = st.moves_made ∧
    (st.mark_mine_list cs).height = st.height ∧
    (st.mark_mine_list cs).width = st.width := by
  induction cs generalizing st with
  | nil => exact ⟨rfl, rfl, rfl, rfl, rfl⟩
  | cons c cs ih =>
    simpa [MinesweeperAI.mark_mine_list, MinesweeperAI.mark_mine, insertList]
      using ih (st.mark_mine c)

theorem rkStep_grows (st : MinesweeperAI) (ev : List MarkEvent) (s : Sentence) :
    Grows st (rkStep st ev s).1 := by
  unfold rkStep
  split_ifs with h1 h2
  · refine ⟨?_, ?_, ?_⟩ <;>
      simp [mark_mine_list_fields (sortCells s.cells) st, insertList_subset]
  · refine ⟨?_, ?_, ?_⟩ <;>
      simp [mark_safe_list_fields (sortCells s.cells) st, insertList_subset]
  · exact grows_refl _

theorem rkPass_cons (st : MinesweeperAI) (ev : List MarkEvent) (s0 : Sentence)
    (rest : List Sentence) :
    rkPass st ev (s0 :: rest) =
      rkPass (rkStep st ev (applyEvents s0 ev)).1 (rkStep st ev (applyEvents s0 ev)).2 rest :=
  rfl

theorem rkPass_grows (l : List Sentence) (st : MinesweeperAI) (ev : List MarkEvent) :
    Grows st (rkPass st ev l) := by
  induction l generalizing st ev with
  | nil => exact grows_refl st
  | cons s0 rest ih =>
    rw [rkPass_cons]
    exact grows_trans (rkStep_grows st ev (applyEvents s0 ev)) (ih _ _)

theorem clean_up_fields (st : MinesweeperAI) :
    (clean_up st).safes = st.safes ∧ (clean_up st).mines = st.mines ∧
    (clean_up st).moves_made = st.moves_made ∧ (clean_up st).height = st.height ∧
    (clean_up st).width = st.width :=
  ⟨rfl, rfl, rfl, rfl, rfl⟩

theorem miStep_grows (ns : Sentence) (st : MinesweeperAI) (ev : List MarkEvent) (s : Sentence) :
    Grows st (miStep ns st ev s).1 := by
  unfold miStep
  split_ifs <;>
    first
      | exact grows_refl _
      | (refine ⟨?_, ?_, ?_⟩ <;>
          simp [mark_mine_list_fields, mark_safe_list_fields, insertList_subset])

theorem miPass_cons (ns : Sentence) (st : MinesweeperAI) (ev : List MarkEvent)
    (s0 : Sentence) (rest : List Sentence) :
    miPass ns st ev (s0 :: rest) =
      miPass ns (miStep ns (clean_up st) ev (applyEvents s0 ev)).1
        (miStep ns (clean_up st) ev (applyEvents s0 ev)).2 rest :=
  rfl

theorem clean_up_grows (st : MinesweeperAI) : Grows st (clean_up st) :=
  grows_refl st

theorem miPass_grows (l : List Sentence) (ns : Sentence) (st : MinesweeperAI)
    (ev : List MarkEvent) : Grows st (miPass ns st ev l) := by
  induction l generalizing st ev with
  | nil => exact grows_refl st
  | cons s0 rest ih =>
    rw [miPass_cons]
    exact grows_trans (clean_up_grows st)
      (grows_trans (miStep_grows ns (clean_up st) ev (applyEvents s0 ev)) (ih _ _))

theorem make_inferences_grows (st : MinesweeperAI) (ns : Sentence) :
    Grows st (make_inferences st ns) :=
  miPass_grows st.knowledge ns st []

theorem remove_knowns_grows (st : MinesweeperAI) : Grows st (remove_knowns st) :=
  rkPass_grows st.knowledge { st with knowledge := [] } []

theorem mark_mine_grows (st : MinesweeperAI) (c : Cell) : Grows st (st.mark_mine c) :=
  ⟨Finset.Subset.refl _, Finset.subset_insert c st.mines, Finset.Subset.refl _⟩

theorem mark_safe_grows (st : MinesweeperAI) (c : Cell) : Grows st (st.mark_safe c) :=
  ⟨Finset.subset_insert c st.safes, Finset.Subset.refl _, Finset.Subset.refl _⟩

theorem knowledge_update_grows (st : MinesweeperAI) (k : List Sentence) :
    Grows st { st with knowledge := k } :=
  ⟨Finset.Subset.refl _, Finset.Subset.refl _, Finset.Subset.refl _⟩

theorem add_knowledge_grows (st : MinesweeperAI) (cell : Cell) (count : ℤ) :
    Grows st (add_knowledge st cell count) := by
  have h1 : Grows st { st with moves_made := insert cell st.moves_made } :=
    ⟨Finset.Subset.refl _, Finset.Subset.refl _, Finset.subset_insert _ _⟩
  simp only [add_knowledge]
  refine grows_trans h1 ?_
  refine grows_trans (mark_safe_grows { st with moves_made := insert cell st.moves_made } cell) ?_
  refine grows_trans ?_ (remove_knowns_grows _)
  refine grows_trans ?_ (clean_up_grows _)
  exact grows_trans (make_inferences_grows _ _) (knowledge_update_grows _ _)

theorem applyOp_grows (st : MinesweeperAI) (op : AgentOp) : Grows st (applyOp st op) := by
  cases op with
  | mark_mine_op c => exact mark_mine_grows st c
  | mark_safe_op c => exact mark_safe_grows st c
  | add_knowledge_op c n => exact add_knowledge_grows st c n
  | safe_move_op => exact grows_refl st
  | random_move_op => exact grows_refl st

theorem runOps_grows (ops : List AgentOp) (st : MinesweeperAI) : Grows st (runOps st ops) := by
  induction ops generalizing st with
  | nil => exact grows_refl st
  | cons op ops ih => exact grows_trans (applyOp_grows st op) (ih (applyOp st op))

theorem mark_mine_empty_cells (c : ℤ) (x : Cell) :
    Sentence.mark_mine ⟨∅, c⟩ x = ⟨∅, c⟩ := by
  simp [Sentence.mark_mine]

theorem mark_safe_empty_cells (c : ℤ) (x : Cell) :
    Sentence.mark_safe ⟨∅, c⟩ x = ⟨∅, c⟩ := by
  simp [Sentence.mark_safe]

theorem applyEvents_empty_cells (ev : List MarkEvent) (c : ℤ) :
    applyEvents ⟨∅, c⟩ ev = ⟨∅, c⟩ := by
  induction ev with
  | nil => rfl
  | cons e es ih =>
    rw [applyEvents]
    rcases e with ⟨b, x⟩
    cases b <;> simp [mark_mine_empty_cells, mark_safe_empty_cells, ih]

theorem optTruthy_empty_known_mines (c : ℤ) :
    optTruthy (Sentence.known_mines ⟨∅, c⟩) = false := by
  unfold Sentence.known_mines optTruthy
  split_ifs <;> simp

theorem optTruthy_empty_known_safes (c : ℤ) :
    optTruthy (Sentence.known_safes ⟨∅, c⟩) = false := by
  unfold Sentence.known_safes optTruthy
  split_ifs <;> simp

theorem mark_mine_list_empty_mem (cs : List Cell) (st : MinesweeperAI) (c : ℤ)
    (h : (⟨∅, c⟩ : Sentence) ∈ st.knowledge) :
    (⟨∅, c⟩ : Sentence) ∈ (st.mark_mine_list cs).knowledge := by
  induction cs generalizing st with
  | nil => exact h
  | cons x cs ih =>
    refine ih (st.mark_mine x) ?_
    have : Sentence.mark_mine ⟨∅, c⟩ x = ⟨∅, c⟩ := mark_mine_empty_cells c x
    simpa [MinesweeperAI.mark_mine] using List.mem_map_of_mem (fun s => s.mark_mine x) h

theorem mark_safe_list_empty_mem (cs : List Cell) (st : MinesweeperAI) (c : ℤ)
    (h : (⟨∅, c⟩ : Sentence) ∈ st.knowledge) :
    (⟨∅, c⟩ : Sentence) ∈ (st.mark_safe_list cs).knowledge := by
  induction cs generalizing st with
  | nil => exact h
  | cons x cs ih =>
    refine ih (st.mark_safe x) ?_
    simpa [MinesweeperAI.mark_safe, mark_safe_empty_cells]
      using List.mem_map_of_mem (fun s => s.mark_safe x) h

theorem rkPass_empty_kept (l : List Sentence) (st : MinesweeperAI) (ev : List MarkEvent)
    (c : ℤ) (h : (⟨∅, c⟩ : Sentence) ∈ st.knowledge ∨ (⟨∅, c⟩ : Sentence) ∈ l) :
    (⟨∅, c⟩ : Sentence) ∈ (rkPass st ev l).knowledge := by
  induction l generalizing st ev with
  | nil =>
    rcases h with h | h
    · exact h
    · cases h
  | cons s0 rest ih =>
    rw [rkPass_cons]
    rcases h with h | h
    · refine ih _ _ (Or.inl ?_)
      unfold rkStep
      split_ifs
      · exact mark_mine_list_empty_mem _ st c h
      · exact mark_safe_list_empty_mem _ st c h
      · exact List.mem_append_left _ h
    · rcases List.mem_cons.mp h with h | h
      · subst h
        refine ih _ _ (Or.inl ?_)
        rw [applyEvents_empty_cells]
        unfold rkStep
        rw [optTruthy_empty_known_mines, optTruthy_empty_known_safes]
        simp
      · exact ih _ _ (Or.inr h)

theorem optTruthy_known_mines_of (s : Sentence) (hcard : (s.cells.card : ℤ) = s.count)
    (hne : s.cells ≠ ∅) : optTruthy s.known_mines = true := by
  unfold Sentence.known_mines optTruthy
  rw [if_pos hcard]
  simpa using hne

theorem optTruthy_known_mines_zero (s : Sentence) (hcount : s.count = 0)
    (hne : s.cells ≠ ∅) : optTruthy s.known_mines = false := by
  unfold Sentence.known_mines optTruthy
  have hcard : ¬ ((s.cells.card : ℤ) = s.count) := by
    rw [hcount]
    intro h
    exact hne (Finset.card_eq_zero.mp (by exact_mod_cast h))
  rw [if_neg hcard]

theorem optTruthy_known_safes_of (s : Sentence) (hcount : s.count = 0)
    (hne : s.cells ≠ ∅) : optTruthy s.known_safes = true := by
  unfold Sentence.known_safes optTruthy
  rw [if_pos hcount]
  simpa using hne

theorem mem_sortCells_iff (c : Cell) (s : Finset Cell) : c ∈ sortCells s ↔ c ∈ s := by
  rcases s with ⟨m, hm⟩
  revert hm
  refine Quotient.inductionOn m ?_
  intro l hm
  rw [Finset.mem_mk]
  change c ∈ List.insertionSort cellLe l ↔ c ∈ (l : Multiset Cell)
  rw [Multiset.mem_coe]
  exact (List.perm_insertionSort cellLe l).mem_iff

theorem mem_sortCells {c : Cell} {s : Finset Cell} (h : c ∈ s) : c ∈ sortCells s :=
  (mem_sortCells_iff c s).mpr h

theorem mark_mine_list_knowledge_length (cs : List Cell) (st : MinesweeperAI) :
    (st.mark_mine_list cs).knowledge.length = st.knowledge.length := by
  induction cs generalizing st with
  | nil => rfl
  | cons c cs ih =>
    show ((st.mark_mine c).mark_mine_list cs).knowledge.length = _
    rw [ih (st.mark_mine c)]
    simp [MinesweeperAI.mark_mine]

theorem mark_safe_list_knowledge_length (cs : List Cell) (st : MinesweeperAI) :
    (st.mark_safe_list cs).knowledge.length = st.knowledge.length := by
  induction cs generalizing st with
  | nil => rfl
  | cons c cs ih =>
    show ((st.mark_safe c).mark_safe_list cs).knowledge.length = _
    rw [ih (st.mark_safe c)]
    simp [MinesweeperAI.mark_safe]

theorem rkPass_append_decomp (pre l2 : List Sentence) (st : MinesweeperAI)
    (ev : List MarkEvent) :
    rkPass st ev (pre ++ l2) =
      rkPass (rkPassEv st ev pre).1 (rkPassEv st ev pre).2 l2 := by
  induction pre generalizing st ev with
  | nil => rfl
  | cons s0 rest ih =>
    rw [List.cons_append, rkPass_cons]
    exact ih _ _

/-- C2 (amended): the extraction performed inside `add_knowledge` is a
SINGLE in-order pass (`remove_knowns`).  For every position of the
knowledge list — split as `pre ++ s :: post` — consider the value of the
shared sentence object `s` at the moment the pass visits it
(`visitValue`, its original value with the pass's earlier marks replayed):
if it is resolved as all-mines (`count = |cells|`, cells nonempty) every
one of its current cells is added to `mines` and the visit appends nothing
to the rebuilt knowledge list (the sentence is dropped); if it is resolved
as all-safes (`count = 0`, cells nonempty) every cell is added to `safes`
and it is likewise dropped; if it is unresolved at the visit (both
truthiness tests fail) it is kept: exactly one entry is appended.  The
pass is not iterated, so a sentence that becomes resolved only through
marks made later in the same pass survives (see the counterexample). -/
theorem C2_single_pass_extraction (st : MinesweeperAI) (pre post : List Sentence)
    (s : Sentence) (hdec : st.knowledge = pre ++ s :: post) :
    ((visitValue st pre s).cells ≠ ∅ →
      ((visitValue st pre s).cells.card : ℤ) = (visitValue st pre s).count →
      (∀ c ∈ (visitValue st pre s).cells, c ∈ (remove_knowns st).mines) ∧
      (rkStep (visitState st pre) (visitEvents st pre)
          (visitValue st pre s)).1.knowledge.length
        = (visitState st pre).knowledge.length) ∧
    ((visitValue st pre s).cells ≠ ∅ → (visitValue st pre s).count = 0 →
      (∀ c ∈ (visitValue st pre s).cells, c ∈ (remove_knowns st).safes) ∧
      (rkStep (visitState st pre) (visitEvents st pre)
          (visitValue st pre s)).1.knowledge.length
        = (visitState st pre).knowledge.length) ∧
    (optTruthy (visitValue st pre s).known_mines = false →
      optTruthy (visitValue st pre s).known_safes = false →
      (rkStep (visitState st pre) (visitEvents st pre)
          (visitValue st pre s)).1.knowledge.length
        = (visitState st pre).knowledge.length + 1) := by
  have hval : applyEvents s (visitEvents st pre) = visitValue st pre s := rfl
  have hrw : remove_knowns st =
      rkPass (visitState st pre) (visitEvents st pre) (s :: post) := by
    unfold remove_knowns visitState visitEvents
    rw [hdec]
    exact rkPass_append_decomp pre (s :: post) _ []
  refine ⟨?_, ?_, ?_⟩
  · intro hne hcard
    have hstep : rkStep (visitState st pre) (visitEvents st pre) (visitValue st pre s) =
        (MinesweeperAI.mark_mine_list (visitState st pre)
            (sortCells (visitValue st pre s).cells),
          visitEvents st pre ++ markEvents (sortCells (visitValue st pre s).cells) true) := by
      unfold rkStep
      rw [optTruthy_known_mines_of _ hcard hne]
      simp
    constructor
    · intro c hc
      rw [hrw, rkPass_cons, hval, hstep]
      refine (rkPass_grows post _ _).2.1 ?_
      rw [(mark_mine_list_fields (sortCells (visitValue st pre s).cells) _).1]
      exact mem_insertList _ _ (mem_sortCells hc)
    · rw [hstep]
      exact mark_mine_list_knowledge_length _ _
  · intro hne hcount
    have hstep : rkStep (visitState st pre) (visitEvents st pre) (visitValue st pre s) =
        (MinesweeperAI.mark_safe_list (visitState st pre)
            (sortCells (visitValue st pre s).cells),
          visitEvents st pre ++ markEvents (sortCells (visitValue st pre s).cells) false) := by
      unfold rkStep
      rw [optTruthy_known_mines_zero _ hcount hne, optTruthy_known_safes_of _ hcount hne]
      simp
    constructor
    · intro c hc
      rw [hrw, rkPass_cons, hval, hstep]
      refine (rkPass_grows post _ _).1 ?_
      rw [(mark_safe_list_fields (sortCells (visitValue st pre s).cells) _).1]
      exact mem_insertList _ _ (mem_sortCells hc)
    · rw [hstep]
      exact mark_safe_list_knowledge_length _ _
  · intro hm hs
    have hstep : rkStep (visitState st pre) (visitEvents st pre) (visitValue st pre s) =
        ({ visitState st pre with
             knowledge := (visitState st pre).knowledge ++ [visitValue st pre s] },
          visitEvents st pre) := by
      unfold rkStep
      rw [hm, hs]
      simp
    rw [hstep]
    simp

/-- C3 (amended): a sentence with an empty cell set is never extracted:
`known_mines()` and `known_safes()` return the empty set for it, which is
falsy, so `remove_knowns` keeps it in the knowledge list (marks cannot touch
it since it has no cells). -/
theorem C3_empty_sentence_retained (st : MinesweeperAI) (c : ℤ)
    (h : (⟨∅, c⟩ : Sentence) ∈ st.knowledge) :
    (⟨∅, c⟩ : Sentence) ∈ (remove_knowns st).knowledge :=
  rkPass_empty_kept st.knowledge { st with knowledge := [] } [] c (Or.inr h)

theorem dedupAux_nodup (l acc : List Sentence) (hacc : acc.Nodup) :
    (dedupAux acc l).Nodup := by
  induction l generalizing acc with
  | nil => exact hacc
  | cons s rest ih =>
    unfold dedupAux
    split_ifs with hmem
    · exact ih acc hacc
    · refine ih (acc ++ [s]) ?_
      rw [List.nodup_append]
      refine ⟨hacc, List.nodup_singleton s, ?_⟩
      intro a ha hb
      rw [List.mem_singleton] at hb
      subst hb
      exact hmem ha

theorem dedupAux_sublist (l : List Sentence) :
    ∀ acc, ∃ l2, dedupAux acc l = acc ++ l2 ∧ l2.Sublist l := by
  induction l with
  | nil => exact fun acc => ⟨[], by simp [dedupAux]⟩
  | cons s rest ih =>
    intro acc
    unfold dedupAux
    split_ifs with hmem
    · obtain ⟨l2, h1, h2⟩ := ih acc
      exact ⟨l2, h1, h2.trans (List.sublist_cons_self s rest)⟩
    · obtain ⟨l2, h1, h2⟩ := ih (acc ++ [s])
      refine ⟨s :: l2, ?_, h2.cons₂ s⟩
      rw [h1, List.append_assoc]
      rfl

/-- C5 (amended): deduplication happens when `clean_up` runs: its result
never contains two structurally-equal sentences, and it is an
order-preserving selection from the previous knowledge list.  (The
extraction pass that `add_knowledge` runs afterwards can re-introduce
structurally-equal sentences, so the claim does not hold at the end of
`add_knowledge`.) -/
theorem C5_clean_up_dedups (st : MinesweeperAI) :
    (clean_up st).knowledge.Nodup ∧ (clean_up st).knowledge.Sublist st.knowledge := by
  constructor
  · exact dedupAux_nodup st.knowledge [] List.nodup_nil
  · obtain ⟨l2, h1, h2⟩ := dedupAux_sublist st.knowledge []
    unfold clean_up
    rw [h1]
    simpa using h2

/-- C6 (amended): the invariant `0 ≤ count ≤ |cells|` is not maintained at
every observable point (public marks can break it); what does hold of the
sentence operations is that `mark_mine` removes the cell and decrements the
count in lockstep, preserving `count ≤ |cells|`, and that `mark_safe` never
changes the count. -/
theorem C6_mark_preservation (s : Sentence) (c : Cell) :
    (s.count ≤ (s.cells.card : ℤ) →
      (s.mark_mine c).count ≤ ((s.mark_mine c).cells.card : ℤ)) ∧
    (s.mark_safe c).count = s.count := by
  constructor
  · intro hle
    unfold Sentence.mark_mine
    split_ifs with hc
    · have h1 : 1 ≤ s.cells.card := Finset.one_le_card.mpr ⟨c, hc⟩
      simp only [Finset.card_erase_of_mem hc]
      omega
    · exact hle
  · unfold Sentence.mark_safe
    split_ifs <;> rfl

theorem sentence_mark_safe_idem (s : Sentence) (c : Cell) :
    (s.mark_safe c).mark_safe c = s.mark_safe c := by
  unfold Sentence.mark_safe
  split_ifs with h1 h2
  · simp at h2
  · rfl
  · rfl

theorem sentence_mark_mine_idem (s : Sentence) (c : Cell) :
    (s.mark_mine c).mark_mine c = s.mark_mine c := by
  unfold Sentence.mark_mine
  split_ifs with h1 h2
  · simp at h2
  · rfl
  · rfl

theorem map_mark_safe_idem (c : Cell) (k : List Sentence) :
    (k.map (fun s => s.mark_safe c)).map (fun s => s.mark_safe c) =
      k.map (fun s => s.mark_safe c) := by
  induction k with
  | nil => rfl
  | cons s rest ih =>
    simp only [List.map_cons, List.cons.injEq]
    exact ⟨sentence_mark_safe_idem s c, ih⟩

theorem map_mark_mine_idem (c : Cell) (k : List Sentence) :
    (k.map (fun s => s.mark_mine c)).map (fun s => s.mark_mine c) =
      k.map (fun s => s.mark_mine c) := by
  induction k with
  | nil => rfl
  | cons s rest ih =>
    simp only [List.map_cons, List.cons.injEq]
    exact ⟨sentence_mark_mine_idem s c, ih⟩

/-- C8: both agent-level mark operations are idempotent: repeating
`mark_safe(c)` or `mark_mine(c)` leaves the state of the first call
unchanged. -/
theorem C8_marks_idempotent (st : MinesweeperAI) (c : Cell) :
    (st.mark_safe c).mark_safe c = st.mark_safe c ∧
    (st.mark_mine c).mark_mine c = st.mark_mine c := by
  obtain ⟨h, w, mm, mi, sa, k⟩ := st
  constructor
  · simp only [MinesweeperAI.mark_safe]
    rw [Finset.insert_idem, map_mark_safe_idem]
  · simp only [MinesweeperAI.mark_mine]
    rw [Finset.insert_idem, map_mark_mine_idem]

/-- C7 (amended): across any sequence of public agent operations, `safes`,
`mines` and `moves_made` only grow and never shrink.  (Disjointness of
`safes` and `mines` is NOT maintained: see the counterexample.) -/
theorem C7_sets_monotone (st : MinesweeperAI) (ops : List AgentOp) :
    st.safes ⊆ (runOps st ops).safes ∧ st.mines ⊆ (runOps st ops).mines ∧
    st.moves_made ⊆ (runOps st ops).moves_made :=
  runOps_grows ops st

/-- C9: `make_safe_move` leaves the agent state unchanged; it returns `None`
exactly when every known-safe cell has already been played or is a known
mine, and any returned cell is a known-safe cell that is neither in
`moves_made` nor in `mines`. -/
theorem C9_safe_move_contract (st : MinesweeperAI) :
    (make_safe_move st).2 = st ∧
    ((make_safe_move st).1 = none ↔ ∀ c ∈ st.safes, c ∈ st.moves_made ∨ c ∈ st.mines) ∧
    (∀ c : Cell, (make_safe_move st).1 = some c →
      c ∈ st.safes ∧ c ∉ st.moves_made ∧ c ∉ st.mines) := by
  refine ⟨rfl, ?_, ?_⟩
  · unfold make_safe_move
    rw [List.find?_eq_none]
    constructor
    · intro hall c hc
      have := hall c (mem_sortCells hc)
      simp only [Bool.and_eq_true, decide_eq_true_eq, not_and] at this
      by_cases hm : c ∈ st.moves_made
      · exact Or.inl hm
      · exact Or.inr (not_not.mp (this hm))
    · intro hall c hc
      have hmem : c ∈ st.safes := (mem_sortCells_iff c st.safes).mp hc
      simp only [Bool.and_eq_true, decide_eq_true_eq, not_and]
      intro hm
      rcases hall c hmem with h | h
      · exact absurd h hm
      · exact not_not.mpr h
  · intro c hfind
    unfold make_safe_move at hfind
    have hmem := List.mem_of_find?_eq_some hfind
    have hp := List.find?_some hfind
    simp only [Bool.and_eq_true, decide_eq_true_eq] at hp
    exact ⟨(mem_sortCells_iff c st.safes).mp hmem, hp.1, hp.2⟩

/-- C10: `get_safes` returns the empty list when `safes` is empty and the
set itself otherwise; in both cases the element collection of the returned
value is exactly `safes`; likewise for `get_mines` and `mines`. -/
theorem C10_accessors (st : MinesweeperAI) :
    returnedCells st.get_safes = st.safes ∧
    (st.get_safes = Sum.inr [] ↔ st.safes = ∅) ∧
    returnedCells st.get_mines = st.mines ∧
    (st.get_mines = Sum.inr [] ↔ st.mines = ∅) := by
  refine ⟨?_, ?_, ?_, ?_⟩
  · by_cases h : st.safes = ∅ <;> simp [MinesweeperAI.get_safes, returnedCells, h]
  · by_cases h : st.safes = ∅ <;> simp [MinesweeperAI.get_safes, returnedCells, h]
  · by_cases h : st.mines = ∅ <;> simp [MinesweeperAI.get_mines, returnedCells, h]
  · by_cases h : st.mines = ∅ <;> simp [MinesweeperAI.get_mines, returnedCells, h]

/-- C1: the code's behaviour on the failing input: the existing sentence is
`{(0,1)} = 1` and the new sentence `{(0,1),(0,2)} = 2` is a strict superset
of it.  The claimed derivation (diff `{(0,2)}`, diffCount `1 = |diff|`, so
`(0,2)` is marked as a mine) does not happen: `make_inferences` computes the
set difference in the wrong direction in this branch (it is empty), so the
state is returned completely unchanged. -/
theorem C1_reverse_branch_inert :
    make_inferences c1ExState c1ExNew = c1ExState ∧
    ((0 : ℤ), (2 : ℤ)) ∉ (make_inferences c1ExState c1ExNew).mines := by
  decide

/-- C2 (counterexample): after `add_knowledge((0,1),1)` then
`add_knowledge((0,3),2)` on a 1×5 board, the knowledge list still holds the
fully-resolved sentence `{(0,0)} = 0` and `(0,0)` has not been added to
`safes` — the extraction pass is not iterated, so a sentence resolved by
marks made later in the same pass survives. -/
theorem C2_counterexample :
    ¬ (∀ s ∈ c2Ex.knowledge, s.count = 0 → ∀ c ∈ s.cells, c ∈ c2Ex.safes) ∧
    c2Ex.knowledge = [⟨{((0 : ℤ), (0 : ℤ))}, 0⟩] ∧
    ((0 : ℤ), (0 : ℤ)) ∉ c2Ex.safes := by
  decide

/-- C3 (counterexample): on a 1×1 board, `add_knowledge((0,0),0)` builds the
degenerate sentence `{} = 0`; `known_mines()`/`known_safes()` return the
empty set for it, which is falsy, so the sentence is kept: a zero-cell
sentence remains in the knowledge list after `add_knowledge` returns. -/
theorem C3_counterexample :
    ¬ (∀ s ∈ c3Ex.knowledge, s.cells ≠ ∅) ∧
    c3Ex.knowledge = [⟨∅, 0⟩] := by
  decide

/-- C4: the code's behaviour on the failing input: a 1×1 agent whose only
cell has been played.  The spec's move domain (complement of
`movesMade ∪ mines` over the 1×1 grid) is empty, so `randomMove` must
signal "none available"; but `make_random_move` enumerates a hardcoded 8×8
grid and finds 63 candidates, returning a cell such as `(0,1)` that is not
even on the board. -/
theorem C4_hardcoded_grid :
    randomMoveDomainSpec c4Ex = ∅ ∧
    (moves_left_to_play c4Ex).length = 63 ∧
    make_random_move c4Ex id = some ((0 : ℤ), (1 : ℤ)) := by
  decide

set_option maxHeartbeats 4000000 in
/-- C5 (counterexample): on a 4×4 board with a mine at (0,0), the reachable
call sequence `add_knowledge (0,2) 0; (1,0) 1; (1,1) 1; (2,1) 0` (all true
board counts) ends with two structurally-equal sentences `{(0,0)} = 1` in
the knowledge list: the final extraction pass marks cells after `clean_up`
already ran, merging two distinct sentences into equal ones. -/
theorem C5_counterexample :
    c5Ex.knowledge = [⟨{((0 : ℤ), (0 : ℤ))}, 1⟩, ⟨{((0 : ℤ), (0 : ℤ))}, 1⟩] ∧
    ¬ c5Ex.knowledge.Nodup := by
  decide

/-- C6 (counterexample): after the public operations
`add_knowledge((0,1),1); mark_safe((0,0)); mark_safe((0,2))` on a 1×3 agent,
the knowledge list holds `{} = 1`, violating `0 ≤ count ≤ |cells|`. -/
theorem C6_counterexample :
    ¬ (∀ s ∈ c6Ex.knowledge, 0 ≤ s.count ∧ s.count ≤ (s.cells.card : ℤ)) := by
  decide

/-- C7 (counterexample): marking the same cell safe and then mine through
the public operations puts it into both sets, so `safes ∩ mines = ∅` does
not hold at every observable point. -/
theorem C7_counterexample :
    ¬ ((runOps (MinesweeperAI.init 2 2) c7Ops).safes ∩
        (runOps (MinesweeperAI.init 2 2) c7Ops).mines = ∅) := by
  decide

/-- Witness for C2 (amended) at a concrete state: for the knowledge list
`[{(0,0)} = 0]` (empty prefix, empty suffix) the visited sentence is
resolved-safe, and `(0,0)` is in `safes` after the pass. -/
theorem C2_single_pass_extraction_witness :
    ((0 : ℤ), (0 : ℤ)) ∈
      (remove_knowns ⟨1, 1, ∅, ∅, ∅, [⟨{((0 : ℤ), (0 : ℤ))}, 0⟩]⟩).safes :=
  ((C2_single_pass_extraction ⟨1, 1, ∅, ∅, ∅, [⟨{((0 : ℤ), (0 : ℤ))}, 0⟩]⟩ [] []
      ⟨{((0 : ℤ), (0 : ℤ))}, 0⟩ rfl).2.1 (by decide) (by decide)).1
    ((0 : ℤ), (0 : ℤ)) (by decide)

/-- Witness for C3 (amended) at a concrete state: the empty sentence `{} = 5`
survives `remove_knowns`. -/
theorem C3_empty_sentence_retained_witness :
    (⟨∅, (5 : ℤ)⟩ : Sentence) ∈
      (remove_knowns ⟨1, 1, ∅, ∅, ∅, [⟨∅, 5⟩]⟩).knowledge :=
  C3_empty_sentence_retained ⟨1, 1, ∅, ∅, ∅, [⟨∅, 5⟩]⟩ 5 (by decide)

/-- Witness for C6 (amended) at a concrete sentence: `{(0,0)} = 1` satisfies
the bound, and still does after `mark_mine((0,0))`. -/
theorem C6_mark_preservation_witness :
    (Sentence.mark_mine ⟨{((0 : ℤ), (0 : ℤ))}, 1⟩ ((0 : ℤ), (0 : ℤ))).count ≤
      ((Sentence.mark_mine ⟨{((0 : ℤ), (0 : ℤ))}, 1⟩ ((0 : ℤ), (0 : ℤ))).cells.card : ℤ) :=
  (C6_mark_preservation ⟨{((0 : ℤ), (0 : ℤ))}, 1⟩ ((0 : ℤ), (0 : ℤ))).1 (by decide)

/-- Witness for C9 at a concrete state: with `safes = {(0,0)}` and nothing
played, `make_safe_move` returns `(0,0)`, which satisfies the contract. -/
theorem C9_safe_move_contract_witness :
    ((0 : ℤ), (0 : ℤ)) ∈ (⟨2, 2, ∅, ∅, {((0 : ℤ), (0 : ℤ))}, []⟩ : MinesweeperAI).safes ∧
    ((0 : ℤ), (0 : ℤ)) ∉
      (⟨2, 2, ∅, ∅, {((0 : ℤ), (0 : ℤ))}, []⟩ : MinesweeperAI).moves_made ∧
    ((0 : ℤ), (0 : ℤ)) ∉ (⟨2, 2, ∅, ∅, {((0 : ℤ), (0 : ℤ))}, []⟩ : MinesweeperAI).mines :=
  (C9_safe_move_contract ⟨2, 2, ∅, ∅, {((0 : ℤ), (0 : ℤ))}, []⟩).2.2
    ((0 : ℤ), (0 : ℤ)) (by decide)
